import Mathlib

/-!
# Verification of `lsh-rs` candidate storage (`src/lsh-rs/src/table.rs`)

Shallow embedding of the in-memory LSH candidate-storage layer:
`VecStore` (append-only vector pool), `MemoryTable` (L hash tables of
hash-code → bucket, sharing one `VecStore`), and the `HashTables`
operations `put` / `delete` / `query_bucket` / `query` /
`idx_to_datapoint` / `increase_storage`.

Modelling conventions:
* `f32` scalars: `table.rs` never performs floating-point arithmetic on
  vector components — the only operation applied to them is the
  componentwise equality `all_eq` — so the scalar is modelled as an
  opaque equality-comparable type, concretely `Int`.
* `Hash` (`crate::hash::Hash`, outside the shown sources) is per the
  spec an opaque, equality- and hash-comparable key; modelled as `Nat`.
* `FnvHashMap<Hash, Bucket>` is modelled as a function
  `Hash → Option Bucket`; `FnvHashSet<u32>` (a `Bucket`) is modelled as
  a duplicate-free list built by insert-if-absent / erase.
* Rust's `as u32` cast on `usize` values truncates: it is modelled by
  `% 2 ^ 32`, exactly where the source casts (`VecStore::push`,
  `VecStore::position`).
* A Rust panic from an unchecked index (`self.hash_tables[hash_table]`
  and `self.map[idx as usize]`) is modelled by an `Option` result whose
  `none` case is the panic; there is no error *value* in that case.
-/

namespace LshRs

/-- Modelled from the spec: the `f32` scalar of `crate::hash`'s vectors.
The core only compares scalars for strict equality (`utils::all_eq`) and
never computes with them, so an equality-comparable stand-in suffices. -/
abbrev F32 := Int

/-- Source: `pub type DataPoint = Vec<f32>;` -/
abbrev DataPoint := List F32

/-- Modelled from the spec: `crate::hash::Hash` (not among the shown
sources) is an opaque, equality- and hash-comparable key. -/
abbrev Hash := Nat

/-- Source: `pub type Bucket = HashSet<u32>;` — a set of `u32` handles, modelled
as a duplicate-free list. -/
abbrev Bucket := List Nat

/-- Source: `pub enum HashTableError \x7b Failed, NotFound \x7d` -/
inductive HashTableError where
  | Failed
  | NotFound
deriving DecidableEq, Repr

/-- Modelled from the spec: `crate::utils::all_eq` (not among the shown
sources) is the strict componentwise equality on vectors: equal length
and equal components, i.e. list equality. -/
def all_eq (a b : DataPoint) : Bool := decide (a = b)

/-- Models `HashSet::insert`: add the handle if absent (sets hold each element
at most once). -/
def bucketInsert (b : Bucket) (idx : Nat) : Bucket :=
  if idx ∈ b then b else b ++ [idx]

/-- Models `HashSet::remove`: drop the handle from the set. On the
duplicate-free lists that model buckets this is `List.erase`. -/
def bucketRemove (b : Bucket) (idx : Nat) : Bucket := b.erase idx

/-- One `FnvHashMap<Hash, Bucket>`. -/
abbrev Table := Hash → Option Bucket

/-- Models `HashMap::insert` (also the write-back through
`entry(hash).or_insert_with(..)`). -/
def tableInsert (t : Table) (k : Hash) (b : Bucket) : Table :=
  fun h => if h = k then some b else t h

/-- Source: `struct VecStore \x7b map: Vec<DataPoint> \x7d` -/
structure VecStore where
  map : List DataPoint
deriving Repr

/-- Models `Iterator::position`: index of the first element satisfying the
predicate (`self.map.iter().position(..)`). -/
def listPosition (p : DataPoint → Bool) : List DataPoint → Option Nat
  | [] => none
  | x :: xs => if p x then some 0 else (listPosition p xs).map (· + 1)

/-- Source `VecStore::push`: append and return `(self.map.len() - 1) as u32`.
The `as u32` cast truncates, hence the `% 2 ^ 32`. -/
def VecStore.push (s : VecStore) (d : DataPoint) : VecStore × Nat :=
  let m := s.map ++ [d]
  (⟨m⟩, (m.length - 1) % 2 ^ 32)

/-- Source `VecStore::position`: first index whose vector is `all_eq` to `d`,
cast `as u32` (truncating). -/
def VecStore.position (s : VecStore) (d : DataPoint) : Option Nat :=
  (listPosition (fun x => all_eq x d) s.map).map (fun x => x % 2 ^ 32)

/-- Source `VecStore::get`: `&self.map[idx as usize]`; the out-of-bounds panic
is modelled as `none`. -/
def VecStore.get (s : VecStore) (idx : Nat) : Option DataPoint :=
  s.map[idx]?

/-- Source `VecStore::increase_storage`: a `Vec::reserve` capacity hint with no
observable semantic effect, so the identity on the model. -/
def VecStore.increase_storage (s : VecStore) (_size : Nat) : VecStore := s

/-- Source: `pub struct MemoryTable \x7b hash_tables, n_hash_tables, vec_store \x7d` -/
structure MemoryTable where
  hash_tables : List Table
  n_hash_tables : Nat
  vec_store : VecStore

/-- Source `MemoryTable::new(n_hash_tables)`: `n` empty hash tables and an
empty vector store. -/
def MemoryTable.new (n : Nat) : MemoryTable where
  hash_tables := List.replicate n (fun _ => none)
  n_hash_tables := n
  vec_store := ⟨[]⟩

/-- Source `MemoryTable::put`. The Rust function returns `Ok(())`; the minted
vector-store index (pushed into the bucket) is exposed alongside the
updated state so that specifications can name it. `none` models the
panic of the unchecked `self.hash_tables[hash_table]` index — on the
Rust side there is no error value for an out-of-range band. -/
def MemoryTable.put (s : MemoryTable) (hash : Hash) (d : DataPoint)
    (hash_table : Nat) : Option (MemoryTable × Nat) :=
  match s.hash_tables[hash_table]? with
  | none => none
  | some tbl =>
    let bucket := (tbl hash).getD []
    let (vs, idx) := s.vec_store.push d
    let bucket' := bucketInsert bucket idx
    some ({ s with
              hash_tables := s.hash_tables.set hash_table (tableInsert tbl hash bucket'),
              vec_store := vs },
          idx)

/-- Source `MemoryTable::delete`. Order matches the source: the linear scan
`vec_store.position(d)` runs first and an absent vector returns `Ok(())`
before the hash table is ever indexed; only then is
`self.hash_tables[hash_table]` indexed (panic modelled as `none`); a
missing bucket is `Err(NotFound)`; otherwise the handle is removed from
the bucket and the result is `Ok(())`. The vector store is never
touched. -/
def MemoryTable.delete (s : MemoryTable) (hash : Hash) (d : DataPoint)
    (hash_table : Nat) : Option (Except HashTableError Unit × MemoryTable) :=
  match s.vec_store.position d with
  | none => some (Except.ok (), s)
  | some idx =>
    match s.hash_tables[hash_table]? with
    | none => none
    | some tbl =>
      match tbl hash with
      | none => some (Except.error HashTableError.NotFound, s)
      | some bucket =>
        some (Except.ok (),
              { s with
                  hash_tables :=
                    s.hash_tables.set hash_table
                      (tableInsert tbl hash (bucketRemove bucket idx)) })

/-- Source `MemoryTable::query_bucket`: `none` models the unchecked-index panic
for an out-of-range band; a missing bucket is `Err(NotFound)`; an
existing bucket is returned whole. -/
def MemoryTable.query_bucket (s : MemoryTable) (hash : Hash)
    (hash_table : Nat) : Option (Except HashTableError Bucket) :=
  match s.hash_tables[hash_table]? with
  | none => none
  | some tbl =>
    match tbl hash with
    | none => some (Except.error HashTableError.NotFound)
    | some bucket => some (Except.ok bucket)

/-- Source `MemoryTable::query`: the ranking stub; unconditionally
`Err(HashTableError::Failed)`. It takes `&self` (no mutation is
possible), so the model needs no state output. The distance function's
`f32` result is never used; its codomain is modelled as `Int`. -/
def MemoryTable.query (_s : MemoryTable) (_distance_fn : DataPoint → Int) :
    Except HashTableError DataPoint :=
  Except.error HashTableError.Failed

/-- Source `MemoryTable::idx_to_datapoint`: forwards to `VecStore::get`. -/
def MemoryTable.idx_to_datapoint (s : MemoryTable) (idx : Nat) :
    Option DataPoint :=
  s.vec_store.get idx

/-- Source `MemoryTable::increase_storage`: forwards the capacity hint. -/
def MemoryTable.increase_storage (s : MemoryTable) (size : Nat) : MemoryTable :=
  { s with vec_store := s.vec_store.increase_storage size }

/-- The bucket currently stored for `(band, hash)`, if any: spec-level
accessor used to state properties ("a Bucket exists for (code, band)"). -/
def MemoryTable.bucketOf (s : MemoryTable) (band : Nat) (hash : Hash) :
    Option Bucket :=
  s.hash_tables[band]?.bind fun tbl => tbl hash

/-- Run a list of `put` operations `(hash, vector, band)` in order,
collecting the minted handles; `none` as soon as one `put` panics. -/
def runPuts : MemoryTable → List (Hash × DataPoint × Nat) →
    Option (MemoryTable × List Nat)
  | s, [] => some (s, [])
  | s, (h, d, b) :: ops =>
    match s.put h d b with
    | none => none
    | some (s', idx) =>
      match runPuts s' ops with
      | none => none
      | some (s'', idxs) => some (s'', idx :: idxs)

/-- The store reached from `MemoryTable.new 2` by
`put(0, [1], 0)` (minting handle `0`) and then `put(7, [1], 1)`
(minting handle `1`): the same vector value `[1]` is stored twice, and
the bucket for `(7, 1)` holds only the second handle. -/
def dupState : MemoryTable where
  hash_tables := [tableInsert (fun _ => none) 0 [0], tableInsert (fun _ => none) 7 [1]]
  n_hash_tables := 2
  vec_store := ⟨[[1], [1]]⟩

/-! ## Helper lemmas -/

/-- Unfolding `put` at a valid band: the minted handle is the truncated
length of the vector store, the vector is appended, and the handle is
inserted into the (possibly fresh) bucket for the hash code. -/
theorem MemoryTable.put_eq (s : MemoryTable) (hash : Hash) (d : DataPoint)
    (band : Nat) (tbl : Table) (ht : s.hash_tables[band]? = some tbl) :
    s.put hash d band =
      some ({ s with
                hash_tables := s.hash_tables.set band
                  (tableInsert tbl hash
                    (bucketInsert ((tbl hash).getD [])
                      (s.vec_store.map.length % 2 ^ 32))),
                vec_store := ⟨s.vec_store.map ++ [d]⟩ },
            s.vec_store.map.length % 2 ^ 32) := by
  unfold MemoryTable.put VecStore.push
  rw [ht]
  simp

/-- Lemma: `put` at a valid band succeeds, mints the truncated current length
as handle, appends the vector, and preserves the band count. -/
theorem MemoryTable.put_shape (s : MemoryTable) (hash : Hash) (d : DataPoint)
    (band : Nat) (hband : band < s.hash_tables.length) :
    ∃ s', s.put hash d band = some (s', s.vec_store.map.length % 2 ^ 32) ∧
      s'.hash_tables.length = s.hash_tables.length ∧
      s'.vec_store.map = s.vec_store.map ++ [d] := by
  obtain ⟨tbl, ht⟩ : ∃ tbl, s.hash_tables[band]? = some tbl :=
    ⟨_, List.getElem?_eq_getElem hband⟩
  exact ⟨_, s.put_eq hash d band tbl ht, by simp, rfl⟩

/-- Running a list of `put`s whose bands are all valid: every `put`
succeeds, the minted handles are the successive vector-store lengths
truncated `as u32`, the band count is preserved, and the vector store
grows by exactly the inserted payloads, in order. -/
theorem runPuts_spec (ops : List (Hash × DataPoint × Nat)) :
    ∀ s : MemoryTable, (∀ op ∈ ops, op.2.2 < s.hash_tables.length) →
      ∃ s', runPuts s ops =
          some (s', (List.range ops.length).map
            (fun i => (s.vec_store.map.length + i) % 2 ^ 32)) ∧
        s'.hash_tables.length = s.hash_tables.length ∧
        s'.vec_store.map = s.vec_store.map ++ ops.map (fun op => op.2.1) := by
  induction ops with
  | nil => exact fun s _ => ⟨s, by simp [runPuts], rfl, by simp⟩
  | cons op ops ih =>
    intro s hv
    obtain ⟨h, d, b⟩ := op
    have hb : b < s.hash_tables.length := hv (h, d, b) (by simp)
    obtain ⟨s1, hput, hlen1, hmap1⟩ := s.put_shape h d b hb
    obtain ⟨s2, hrun, hlen2, hmap2⟩ :=
      ih s1 (fun op hop => hlen1 ▸ hv op (List.mem_cons_of_mem _ hop))
    have hl1 : s1.vec_store.map.length = s.vec_store.map.length + 1 := by
      rw [hmap1]; simp
    refine ⟨s2, ?_, by rw [hlen2, hlen1], by rw [hmap2, hmap1]; simp⟩
    simp only [runPuts, hput, hrun]
    rw [List.length_cons, List.range_succ_eq_map, List.map_cons, List.map_map, hl1]
    congr 1
    simp
    intro a ha
    omega

/-- Unfolding `delete` when the scan finds a handle and the bucket for
`(code, band)` exists: the handle is erased from that bucket and the
call reports success. -/
theorem MemoryTable.delete_eq_found (s : MemoryTable) (hash : Hash)
    (d : DataPoint) (band idx : Nat) (tbl : Table) (B : Bucket)
    (hpos : s.vec_store.position d = some idx)
    (ht : s.hash_tables[band]? = some tbl)
    (hB : tbl hash = some B) :
    s.delete hash d band =
      some (Except.ok (),
        { s with hash_tables := s.hash_tables.set band (tableInsert tbl hash (bucketRemove B idx)) }) := by
  unfold MemoryTable.delete
  simp only [hpos, ht, hB]

/-- Unfolding `query_bucket` when the bucket for `(code, band)`
exists. -/
theorem MemoryTable.query_bucket_eq_found (s : MemoryTable) (hash : Hash)
    (band : Nat) (tbl : Table) (b : Bucket)
    (ht : s.hash_tables[band]? = some tbl) (hB : tbl hash = some b) :
    s.query_bucket hash band = some (Except.ok b) := by
  unfold MemoryTable.query_bucket
  simp only [ht, hB]

/-- The linear scan finds nothing exactly when no element satisfies the
predicate. -/
theorem listPosition_eq_none (p : DataPoint → Bool) (l : List DataPoint) :
    listPosition p l = none ↔ ∀ x ∈ l, p x = false := by
  induction l with
  | nil => simp [listPosition]
  | cons x xs ih =>
    by_cases hx : p x <;> simp [listPosition, hx, Option.map_eq_none', ih]

/-- When the linear scan returns an index, that index holds a match and
every earlier index does not. -/
theorem listPosition_eq_some (p : DataPoint → Bool) (l : List DataPoint)
    (i : Nat) (h : listPosition p l = some i) :
    ∃ x, l[i]? = some x ∧ p x = true ∧
      ∀ j < i, ∀ y, l[j]? = some y → p y = false := by
  induction l generalizing i with
  | nil => simp [listPosition] at h
  | cons x xs ih =>
    rw [listPosition] at h
    by_cases hx : p x
    · rw [if_pos hx] at h
      cases h
      exact ⟨x, List.getElem?_cons_zero, hx, fun j hj => by omega⟩
    · rw [if_neg hx] at h
      obtain ⟨i', hi', rfl⟩ := Option.map_eq_some'.mp h
      obtain ⟨y, hy, hpy, hmin⟩ := ih i' hi'
      refine ⟨y, by simpa using hy, hpy, ?_⟩
      intro j hj z hz
      cases j with
      | zero =>
        rw [List.getElem?_cons_zero] at hz
        cases hz
        exact Bool.eq_false_iff.mpr hx
      | succ j' =>
        rw [List.getElem?_cons_succ] at hz
        exact hmin j' (by omega) z hz

/-- A scan over an all-mismatch prefix shifts the found index by the
prefix length. -/
theorem listPosition_append_of_none (p : DataPoint → Bool)
    (l l' : List DataPoint) (h : listPosition p l = none) :
    listPosition p (l ++ l') = (listPosition p l').map (· + l.length) := by
  induction l with
  | nil => simp [listPosition]
  | cons x xs ih =>
    rw [listPosition] at h
    by_cases hx : p x
    · rw [if_pos hx] at h; cases h
    · rw [if_neg hx] at h
      have hxs : listPosition p xs = none := Option.map_eq_none'.mp h
      show listPosition p (x :: (xs ++ l')) = _
      rw [listPosition, if_neg hx, ih hxs, Option.map_map, List.length_cons]
      congr 1

/-! ## Claim theorems: error handling (C2, C3, C5, C7, C8) -/

/-- C2 (code bug in the source): for a band index outside `[0, L)`,
`put` does not fail with an explicit, distinct "invalid band" error —
`self.hash_tables[hash_table]` is an unchecked index, so the call is an
access fault (panic, modelled as `none`): no `HashTableError` value is
ever produced for an out-of-range band. Concretely, on a fresh store
with `L = 1`, `put` at band `1` panics. -/
theorem C2_put_invalid_band_panics :
    MemoryTable.put (MemoryTable.new 1) 0 [1] 1 = none := rfl

/-- C3 (amended): if no stored vector is componentwise equal to `v`
(the linear scan `VecStore::position` finds nothing), then
`delete(code, v, band)` reports success and leaves the whole store —
every bucket in every band and the vector store — unchanged. -/
theorem C3_delete_unstored_vector (s : MemoryTable) (hash : Hash)
    (v : DataPoint) (band : Nat) (_hband : band < s.n_hash_tables)
    (hnone : s.vec_store.position v = none) :
    s.delete hash v band = some (Except.ok (), s) := by
  unfold MemoryTable.delete
  rw [hnone]

theorem C3_delete_unstored_vector_witness :
    (0 < (MemoryTable.new 1).n_hash_tables ∧
      (MemoryTable.new 1).vec_store.position [1] = none) ∧
    (MemoryTable.new 1).delete 0 [1] 0 = some (Except.ok (), MemoryTable.new 1) :=
  ⟨⟨by decide, rfl⟩,
    C3_delete_unstored_vector (MemoryTable.new 1) 0 [1] 0 (by decide) rfl⟩

/-- C3 (counterexample to the claim as stated): on a two-band store
where `[1]` was inserted only in band `0`, deleting `[1]` from band `1`
(where it was never inserted, under a hash code with no bucket) reports
`Err(NotFound)`, not success: the scan finds the vector in the shared
vector store, and the missing bucket for `(code, band)` is then an
error. -/
theorem C3_counterexample :
    (((MemoryTable.new 2).put 0 [1] 0).bind fun p =>
        (p.1.delete 5 [1] 1).map Prod.fst)
      = some (Except.error HashTableError.NotFound) := rfl

/-- C5: `delete` never removes or alters any entry of the vector store
— whatever it reports, the vector store is unchanged, so resolving any
handle returns exactly what it returned before the delete (the store
never shrinks). -/
theorem C5_delete_leaves_vector_store (s : MemoryTable) (hash : Hash)
    (v : DataPoint) (band : Nat) (r : Except HashTableError Unit)
    (s' : MemoryTable) (h : s.delete hash v band = some (r, s')) :
    s'.vec_store = s.vec_store ∧
      ∀ idx, s'.idx_to_datapoint idx = s.idx_to_datapoint idx := by
  unfold MemoryTable.delete at h
  split at h
  · cases h
    exact ⟨rfl, fun _ => rfl⟩
  · split at h
    · cases h
    · split at h
      · cases h
        exact ⟨rfl, fun _ => rfl⟩
      · cases h
        exact ⟨rfl, fun _ => rfl⟩

theorem C5_delete_leaves_vector_store_witness :
    (MemoryTable.new 1).delete 0 [1] 0 = some (Except.ok (), MemoryTable.new 1) ∧
    ((MemoryTable.new 1).vec_store = (MemoryTable.new 1).vec_store ∧
      ∀ idx, (MemoryTable.new 1).idx_to_datapoint idx
        = (MemoryTable.new 1).idx_to_datapoint idx) :=
  ⟨rfl, C5_delete_leaves_vector_store (MemoryTable.new 1) 0 [1] 0 _ _ rfl⟩

/-- C7: for a band inside `[0, L)`, `query_bucket` completes without
fault and returns `Err(NotFound)` exactly when no bucket exists for
`(code, band)`, and otherwise the complete bucket stored there. -/
theorem C7_query_bucket_spec (s : MemoryTable) (hash : Hash) (band : Nat)
    (hband : band < s.hash_tables.length) :
    s.query_bucket hash band =
      some (match s.bucketOf band hash with
            | none => Except.error HashTableError.NotFound
            | some b => Except.ok b) := by
  unfold MemoryTable.query_bucket MemoryTable.bucketOf
  rw [List.getElem?_eq_getElem hband]
  cases h : (s.hash_tables[band] : Table) hash <;> simp [h]

theorem C7_query_bucket_spec_witness :
    0 < (MemoryTable.new 1).hash_tables.length ∧
    (MemoryTable.new 1).query_bucket 3 0 =
      some (match (MemoryTable.new 1).bucketOf 0 3 with
            | none => Except.error HashTableError.NotFound
            | some b => Except.ok b) :=
  ⟨by decide, C7_query_bucket_spec (MemoryTable.new 1) 3 0 (by decide)⟩

/-! ## Claim theorems: put/resolve round trip (C1) -/

/-- C1 (amended): for every band in `[0, L)`, if the vector store holds
fewer than `2 ^ 32` vectors before the call, then `put(code, v, band)`
succeeds and resolving the handle it mints (`idx_to_datapoint`) returns
a vector componentwise equal to `v`. (The bound is forced by the
`as u32` truncation in `VecStore::push`.) -/
theorem C1_put_resolve (s : MemoryTable) (hash : Hash) (v : DataPoint)
    (band : Nat) (hband : band < s.hash_tables.length)
    (hlen : s.vec_store.map.length < 2 ^ 32) :
    (s.put hash v band).map (fun p => p.1.idx_to_datapoint p.2)
      = some (some v) := by
  obtain ⟨tbl, ht⟩ : ∃ tbl, s.hash_tables[band]? = some tbl :=
    ⟨_, List.getElem?_eq_getElem hband⟩
  rw [s.put_eq hash v band tbl ht]
  have h0 : s.vec_store.map.length % 4294967296 = s.vec_store.map.length :=
    Nat.mod_eq_of_lt (by simpa using hlen)
  simp [MemoryTable.idx_to_datapoint, VecStore.get, h0,
    List.getElem?_concat_length]

theorem C1_put_resolve_witness :
    (0 < (MemoryTable.new 1).hash_tables.length ∧
      (MemoryTable.new 1).vec_store.map.length < 2 ^ 32) ∧
    ((MemoryTable.new 1).put 7 [5, 6] 0).map (fun p => p.1.idx_to_datapoint p.2)
      = some (some [5, 6]) :=
  ⟨⟨by decide, by decide⟩,
    C1_put_resolve (MemoryTable.new 1) 7 [5, 6] 0 (by decide) (by decide)⟩

/-- C1 (counterexample to the claim as stated): after `2 ^ 32` puts on
a fresh one-band store, the vector store holds `2 ^ 32` vectors; one
more `put` of `[1]` succeeds, but its minted handle is
`(2 ^ 32) as u32 = 0`, and resolving it returns the first stored vector
`[0]`, not `[1]`. -/
theorem C1_counterexample :
    ((runPuts (MemoryTable.new 1)
        (List.replicate (2 ^ 32) (0, ([0] : DataPoint), 0))).bind fun p =>
          (p.1.put 0 [1] 0).map fun q => q.1.idx_to_datapoint q.2)
      = some (some [0]) ∧ ([0] : DataPoint) ≠ [1] := by
  refine ⟨?_, by decide⟩
  obtain ⟨s', hrun, hlen, hmap⟩ :=
    runPuts_spec (List.replicate (2 ^ 32) (0, ([0] : DataPoint), 0))
      (MemoryTable.new 1)
      (fun op hop => by rw [List.eq_of_mem_replicate hop]; decide)
  rw [hrun]
  have hb : 0 < s'.hash_tables.length := by rw [hlen]; decide
  obtain ⟨s2, hput, -, hmap2⟩ := s'.put_shape 0 [1] 0 hb
  have hvlen : s'.vec_store.map.length = 2 ^ 32 := by
    rw [hmap, List.length_append, List.length_map, List.length_replicate]
    show 0 + 2 ^ 32 = 2 ^ 32
    rw [Nat.zero_add]
  rw [Option.some_bind, hput, Option.map_some']
  have hres : s2.idx_to_datapoint (s'.vec_store.map.length % 2 ^ 32)
      = some [0] := by
    rw [hvlen, Nat.mod_self]
    unfold MemoryTable.idx_to_datapoint VecStore.get
    rw [hmap2, hmap, List.map_replicate, List.append_assoc]
    have hA : (MemoryTable.new 1).vec_store.map = [] := rfl
    rw [hA, List.nil_append]
    rw [List.getElem?_append_left (by rw [List.length_replicate]; positivity)]
    rw [List.getElem?_replicate, if_pos (by positivity)]
  rw [hres]

/-! ## Claim theorems: handle minting (C4) -/

/-- C4 (amended): for any sequence of at most `2 ^ 32` `put` calls with
valid bands on a fresh store, the minted handles are exactly
`0, 1, …, n-1`: pairwise distinct, strictly increasing, starting at `0`
with no gaps, never reused. (The bound is forced by the `as u32`
truncation in `VecStore::push`.) -/
theorem C4_handles_range (L : Nat) (ops : List (Hash × DataPoint × Nat))
    (hv : ∀ op ∈ ops, op.2.2 < L) (hlen : ops.length ≤ 2 ^ 32) :
    (runPuts (MemoryTable.new L) ops).map Prod.snd
      = some (List.range ops.length) := by
  obtain ⟨s', hrun, -, -⟩ :=
    runPuts_spec ops (MemoryTable.new L)
      (fun op hop => by simpa [MemoryTable.new] using hv op hop)
  have hid : ∀ i ∈ List.range ops.length,
      ((MemoryTable.new L).vec_store.map.length + i) % 2 ^ 32 = i := by
    intro i hi
    have h0 : (MemoryTable.new L).vec_store.map.length = 0 := rfl
    have hlt : i < 2 ^ 32 := lt_of_lt_of_le (List.mem_range.mp hi) hlen
    rw [h0, Nat.zero_add, Nat.mod_eq_of_lt hlt]
  rw [hrun, Option.map_some', List.map_congr_left hid, List.map_id']

theorem C4_handles_range_witness :
    ((∀ op ∈ [((0 : Hash), ([1] : DataPoint), 0), (3, [2], 0)], op.2.2 < 1) ∧
      ([((0 : Hash), ([1] : DataPoint), 0), (3, [2], 0)].length ≤ 2 ^ 32)) ∧
    (runPuts (MemoryTable.new 1)
        [((0 : Hash), ([1] : DataPoint), 0), (3, [2], 0)]).map Prod.snd
      = some (List.range 2) :=
  ⟨⟨by decide, by decide⟩, C4_handles_range 1 _ (by decide) (by decide)⟩

/-- C4 (counterexample to the claim as stated): a sequence of
`2 ^ 32 + 1` puts on one fresh one-band store mints the handle list
`(range (2 ^ 32 + 1)).map (· % 2 ^ 32)`, which contains `0` twice (for
the first and the last put): the minted handles are not pairwise
distinct, so a handle is reused. -/
theorem C4_counterexample :
    (runPuts (MemoryTable.new 1)
        (List.replicate (2 ^ 32 + 1) (0, ([0] : DataPoint), 0))).map Prod.snd
      = some ((List.range (2 ^ 32 + 1)).map (fun i => i % 2 ^ 32)) ∧
    ¬ ((List.range (2 ^ 32 + 1)).map (fun i => i % 2 ^ 32)).Nodup := by
  constructor
  · obtain ⟨s', hrun, -, -⟩ :=
      runPuts_spec (List.replicate (2 ^ 32 + 1) (0, ([0] : DataPoint), 0))
        (MemoryTable.new 1)
        (fun op hop => by rw [List.eq_of_mem_replicate hop]; decide)
    rw [hrun, Option.map_some']
    rw [List.length_replicate]
    have hid : ∀ i ∈ List.range (2 ^ 32 + 1),
        ((MemoryTable.new 1).vec_store.map.length + i) % 2 ^ 32
          = i % 2 ^ 32 := by
      intro i _
      have h0 : (MemoryTable.new 1).vec_store.map.length = 0 := rfl
      rw [h0, Nat.zero_add]
    rw [List.map_congr_left hid]
  · intro hnodup
    rw [List.range_succ, List.map_append, List.nodup_append] at hnodup
    obtain ⟨-, -, hdisj⟩ := hnodup
    have h1 : (0 : Nat) ∈ (List.range (2 ^ 32)).map (fun i => i % 2 ^ 32) :=
      List.mem_map.mpr ⟨0, List.mem_range.mpr (by positivity), Nat.zero_mod _⟩
    have h2 : (0 : Nat) ∈ ([2 ^ 32] : List Nat).map (fun i => i % 2 ^ 32) :=
      List.mem_map.mpr ⟨2 ^ 32, List.mem_singleton.mpr rfl, Nat.mod_self _⟩
    exact hdisj h1 h2

/-! ## Claim theorems: bucket persistence (C6) -/

/-- C6 (amended): insert a vector `v` as the sole member of a freshly
created bucket for `(code, band)` and then delete it; provided no
previously stored vector was componentwise equal to `v`, the delete
reports success and `query_bucket(code, band)` afterwards returns an
existing, empty candidate set — not `NotFound`: the emptied bucket is
never pruned from its table. -/
theorem C6_emptied_bucket_persists (s : MemoryTable) (hash : Hash)
    (v : DataPoint) (band : Nat) (hband : band < s.hash_tables.length)
    (hnobucket : s.bucketOf band hash = none)
    (hnomatch : s.vec_store.position v = none) :
    ∃ s1 h s2,
      s.put hash v band = some (s1, h) ∧
      s1.delete hash v band = some (Except.ok (), s2) ∧
      s2.query_bucket hash band = some (Except.ok ([] : Bucket)) := by
  obtain ⟨tbl, ht⟩ : ∃ tbl, s.hash_tables[band]? = some tbl :=
    ⟨_, List.getElem?_eq_getElem hband⟩
  have hb0 : tbl hash = none := by
    unfold MemoryTable.bucketOf at hnobucket
    rw [ht] at hnobucket
    simpa using hnobucket
  set idx := s.vec_store.map.length % 2 ^ 32 with hidx
  set tbl1 : Table := tableInsert tbl hash [idx] with htbl1
  set s1 : MemoryTable :=
    { s with
        hash_tables := s.hash_tables.set band tbl1,
        vec_store := ⟨s.vec_store.map ++ [v]⟩ } with hs1
  set s2 : MemoryTable :=
    { s1 with hash_tables := s1.hash_tables.set band (tableInsert tbl1 hash []) } with hs2
  have hput : s.put hash v band = some (s1, idx) := by
    rw [s.put_eq hash v band tbl ht, hb0]
    rfl
  have hband1 : band < s1.hash_tables.length := by
    show band < (s.hash_tables.set band tbl1).length
    rw [List.length_set]
    exact hband
  have hpos1 : s1.vec_store.position v = some idx := by
    show (VecStore.mk (s.vec_store.map ++ [v])).position v = some idx
    unfold VecStore.position
    have hnone0 : listPosition (fun x => all_eq x v) s.vec_store.map = none := by
      unfold VecStore.position at hnomatch
      exact Option.map_eq_none'.mp hnomatch
    rw [listPosition_append_of_none _ _ _ hnone0]
    have h1 : listPosition (fun x => all_eq x v) [v] = some 0 := by
      unfold listPosition
      rw [if_pos (show all_eq v v = true by simp [all_eq])]
    rw [h1]
    show some ((0 + s.vec_store.map.length) % 2 ^ 32) = some idx
    rw [Nat.zero_add]
  have ht1 : s1.hash_tables[band]? = some tbl1 := by
    show (s.hash_tables.set band tbl1)[band]? = some tbl1
    exact List.getElem?_set_self hband
  have hB1 : tbl1 hash = some [idx] := by
    show (if hash = hash then some [idx] else tbl hash) = some [idx]
    rw [if_pos rfl]
  have hdel : s1.delete hash v band = some (Except.ok (), s2) := by
    rw [s1.delete_eq_found hash v band idx tbl1 [idx] hpos1 ht1 hB1]
    unfold bucketRemove
    rw [List.erase_cons_head]
  have ht2 : s2.hash_tables[band]? = some (tableInsert tbl1 hash []) := by
    show (s1.hash_tables.set band (tableInsert tbl1 hash []))[band]? = _
    exact List.getElem?_set_self hband1
  have hB2 : tableInsert tbl1 hash [] hash = some [] := by
    show (if hash = hash then some [] else tbl1 hash) = some []
    rw [if_pos rfl]
  exact ⟨s1, idx, s2, hput, hdel,
    s2.query_bucket_eq_found hash band (tableInsert tbl1 hash []) [] ht2 hB2⟩

theorem C6_emptied_bucket_persists_witness :
    (0 < (MemoryTable.new 1).hash_tables.length ∧
      (MemoryTable.new 1).bucketOf 0 0 = none ∧
      (MemoryTable.new 1).vec_store.position [1] = none) ∧
    ∃ s1 h s2,
      (MemoryTable.new 1).put 0 [1] 0 = some (s1, h) ∧
      s1.delete 0 [1] 0 = some (Except.ok (), s2) ∧
      s2.query_bucket 0 0 = some (Except.ok ([] : Bucket)) :=
  ⟨⟨by decide, rfl, rfl⟩,
    C6_emptied_bucket_persists (MemoryTable.new 1) 0 [1] 0 (by decide) rfl rfl⟩

/-- C6 (counterexample to the claim as stated): on a two-band store,
first insert `[1]` in band `0` (handle `0`), then insert `[1]` again as
the sole member of the fresh bucket for `(7, 1)` (handle `1`), and
delete `(7, [1], 1)`. The delete reports success, but the linear scan
finds the duplicate handle `0`, which is not in the bucket — so the
bucket for `(7, 1)` still contains handle `1` and `query_bucket(7, 1)`
returns a non-empty candidate set, not the empty one the claim
promises. -/
theorem C6_counterexample :
    (((MemoryTable.new 2).put 0 [1] 0).bind fun p1 =>
        (p1.1.put 7 [1] 1).bind fun p2 =>
          (p2.1.delete 7 [1] 1).bind fun q =>
            (q.2.query_bucket 7 1).map fun r => (q.1, r))
      = some (Except.ok (), Except.ok [1]) ∧ ([1] : Bucket) ≠ ([] : Bucket) :=
  ⟨rfl, by decide⟩

/-! ## Claim theorems: deletion of duplicated content (C10) -/

/-- C10: if the same vector value `v` is stored under two handles
`h1 < h2`, the scan finds `h1` first, and only `h2` is a member of the
bucket for `(code, band)`, then `delete(code, v, band)` reports success
but removes only the first-found handle `h1` — a no-op on this bucket —
leaving the bucket (and `h2`'s membership) unchanged: the duplicated
vector silently survives in its bucket. -/
theorem C10_delete_first_match (s : MemoryTable) (hash : Hash)
    (v : DataPoint) (band h1 h2 : Nat) (B : Bucket) (tbl : Table)
    (hpos : s.vec_store.position v = some h1)
    (_hlt : h1 < h2)
    (_hv2 : s.vec_store.get h2 = some v)
    (ht : s.hash_tables[band]? = some tbl)
    (hB : tbl hash = some B)
    (h1B : h1 ∉ B) (_h2B : h2 ∈ B) :
    ∃ s', s.delete hash v band = some (Except.ok (), s') ∧
      s'.bucketOf band hash = some B := by
  refine ⟨_, s.delete_eq_found hash v band h1 tbl B hpos ht hB, ?_⟩
  have hband : band < s.hash_tables.length := (List.getElem?_eq_some.mp ht).1
  show (s.hash_tables.set band (tableInsert tbl hash (bucketRemove B h1)))[band]?.bind
      (fun t => t hash) = some B
  rw [List.getElem?_set_self hband]
  show (if hash = hash then some (bucketRemove B h1) else tbl hash) = some B
  rw [if_pos rfl]
  unfold bucketRemove
  rw [List.erase_of_not_mem h1B]

theorem C10_delete_first_match_witness :
    (dupState.vec_store.position [1] = some 0 ∧ (0 : Nat) < 1 ∧
      dupState.vec_store.get 1 = some [1] ∧
      dupState.hash_tables[1]? = some (tableInsert (fun _ => none) 7 [1]) ∧
      tableInsert (fun _ => none) 7 [1] 7 = some [1] ∧
      0 ∉ ([1] : Bucket) ∧ 1 ∈ ([1] : Bucket)) ∧
    ∃ s', dupState.delete 7 [1] 1 = some (Except.ok (), s') ∧
      s'.bucketOf 1 7 = some [1] :=
  ⟨⟨rfl, by decide, rfl, rfl, rfl, by decide, by decide⟩,
    C10_delete_first_match dupState 7 [1] 1 0 1 [1]
      (tableInsert (fun _ => none) 7 [1])
      rfl (by decide) rfl rfl rfl (by decide) (by decide)⟩

/-! ## Claim theorems: content lookup (C9) -/

/-- C9 (amended): provided the vector store holds at most `2 ^ 32`
vectors, `VecStore::position` returns `none` exactly when no stored
vector is componentwise equal to `v`, and when it returns a handle, the
vector stored at that handle equals `v` while the vector at every
smaller handle does not — i.e. it returns the smallest matching handle.
(The bound is forced by the `as u32` truncation of the found index.) -/
theorem C9_position_spec (s : VecStore) (v : DataPoint)
    (hlen : s.map.length ≤ 2 ^ 32) :
    (s.position v = none ↔ ∀ w ∈ s.map, w ≠ v) ∧
    ∀ i, s.position v = some i →
      s.get i = some v ∧ ∀ j < i, s.get j ≠ some v := by
  constructor
  · unfold VecStore.position
    rw [Option.map_eq_none', listPosition_eq_none]
    constructor
    · intro h w hw
      simpa [all_eq] using h w hw
    · intro h w hw
      simpa [all_eq] using h w hw
  · intro i hi
    unfold VecStore.position at hi
    obtain ⟨i0, hi0, hmod⟩ := Option.map_eq_some'.mp hi
    obtain ⟨x, hx, hpx, hmin⟩ := listPosition_eq_some _ _ _ hi0
    have hi0lt : i0 < s.map.length := (List.getElem?_eq_some.mp hx).1
    have hi0eq : i0 % 2 ^ 32 = i0 :=
      Nat.mod_eq_of_lt (lt_of_lt_of_le hi0lt hlen)
    rw [hi0eq] at hmod
    subst hmod
    have hxv : x = v := by simpa [all_eq] using hpx
    subst hxv
    refine ⟨hx, ?_⟩
    intro j hj hcontra
    have : all_eq x x = false := hmin j hj x hcontra
    simp [all_eq] at this

theorem C9_position_spec_witness :
    (VecStore.mk [[3], [4]]).map.length ≤ 2 ^ 32 ∧
    (((VecStore.mk [[3], [4]]).position [4] = none ↔
        ∀ w ∈ (VecStore.mk [[3], [4]]).map, w ≠ [4]) ∧
      ∀ i, (VecStore.mk [[3], [4]]).position [4] = some i →
        (VecStore.mk [[3], [4]]).get i = some [4] ∧
          ∀ j < i, (VecStore.mk [[3], [4]]).get j ≠ some [4]) :=
  ⟨by decide, C9_position_spec (VecStore.mk [[3], [4]]) [4] (by decide)⟩

/-- C9 (counterexample to the claim as stated): in a vector store whose
first `2 ^ 32` vectors are `[0]` and whose last vector is `[1]`, the
only componentwise match for `[1]` sits at index `2 ^ 32`, but
`position` truncates the found index `as u32` and returns handle `0` —
and the vector stored at handle `0` is `[0]`, which is not equal to
`[1]`: the returned handle is not a matching handle at all, let alone
the smallest one. -/
theorem C9_counterexample :
    (VecStore.mk (List.replicate (2 ^ 32) [0] ++ [[1]])).position [1]
        = some 0 ∧
    (VecStore.mk (List.replicate (2 ^ 32) [0] ++ [[1]])).get 0 = some [0] ∧
    ([0] : DataPoint) ≠ [1] := by
  refine ⟨?_, ?_, by decide⟩
  · unfold VecStore.position
    have hnone : listPosition (fun x => all_eq x [1])
        (List.replicate (2 ^ 32) [0]) = none := by
      rw [listPosition_eq_none]
      intro x hx
      rw [List.eq_of_mem_replicate hx]
      rfl
    rw [listPosition_append_of_none _ _ _ hnone]
    have h1 : listPosition (fun x => all_eq x [1]) [[1]] = some 0 := rfl
    rw [h1, List.length_replicate]
    show some ((0 + 2 ^ 32) % 2 ^ 32) = some 0
    rw [Nat.zero_add, Nat.mod_self]
  · unfold VecStore.get
    rw [List.getElem?_append_left (by rw [List.length_replicate]; positivity)]
    rw [List.getElem?_replicate, if_pos (by positivity)]

/-- C8: the ranking operation `query` is an unimplemented stub — for
every store state and every distance function it returns
`Err(Failed)` (never `NotFound`, never a vector); it takes the store by
shared reference, so the state is unchanged by construction. -/
theorem C8_query_always_failed (s : MemoryTable) (f : DataPoint → Int) :
    s.query f = Except.error HashTableError.Failed := rfl

end LshRs
